import Mathlib

set_option maxHeartbeats 1000000

/-!
Shallow embedding of the extraction / translation pipeline of the
TechSalaryToday POC scraper (`POC/poc_scraper/poc_scraper.py`).

Python strings are modelled as their code-point sequences (`List Char`),
which is exactly Python's `str` data model; `str.split`, `str.strip`,
`str.join` and `str.replace` are embedded as the corresponding
sequence operations below.
-/

abbrev PyStr := List Char

/-- Character class used by Python's `str.strip()` with no arguments. -/
def isSpaceChar (c : Char) : Bool := c.isWhitespace

/-- Python `s.strip()`: drop leading and trailing whitespace code points. -/
def stripChars (l : PyStr) : PyStr :=
  ((l.dropWhile isSpaceChar).reverse.dropWhile isSpaceChar).reverse

/-- Python `s.split(sep)` for a one-character separator: split at every
occurrence of `sep`, keeping empty pieces (`"".split(sep) == [""]`). -/
def pySplitChar (sep : Char) (l : PyStr) : List PyStr := l.splitOn sep

/-- Python `"\n".join(parts)`. -/
def pyJoinNl (parts : List PyStr) : PyStr := List.intercalate ['\n'] parts

def lowerChars (l : PyStr) : PyStr := l.map Char.toLower

/-- Predicate `containsSub pat hay` tests whether `pat` occurs as a contiguous
substring of `hay`; together with `lowerChars` this models
`re.search(pattern, line, re.IGNORECASE)` for a pattern that is an
alternation of literals. -/
def containsSub (pat : PyStr) : PyStr → Bool
  | [] => pat.isEmpty
  | c :: cs => pat.isPrefixOf (c :: cs) || containsSub pat cs

/-- One regex of the source's `section_patterns` table is an alternation
`(lit1|lit2|...)` of literal strings searched case-insensitively: it
matches a line iff some alternative occurs in the lowercased line. -/
def regexSearchCI (alts : List String) (line : PyStr) : Bool :=
  alts.any (fun a => containsSub (lowerChars a.data) (lowerChars line))

inductive SectionName where
  | job_description
  | requirements
  | what_we_offer
  | employment_conditions
  | application_process
deriving DecidableEq

/-- Iteration order of the `section_patterns` dict (insertion order,
poc_scraper.py lines 712-730). -/
def sectionOrder : List SectionName :=
  [SectionName.job_description, SectionName.requirements, SectionName.what_we_offer,
   SectionName.employment_conditions, SectionName.application_process]

/-- The `section_patterns` table (poc_scraper.py lines 712-730), each
regex given as its list of literal alternatives. -/
def sectionPatterns : SectionName → List (List String)
  | SectionName.job_description =>
      [["Functieomschrijving", "Job description", "What will you do", "Wat ga je doen"],
       ["About the role", "Over de functie"]]
  | SectionName.requirements =>
      [["Functie-eisen", "Job requirements", "Requirements", "Wat vragen wij", "What do we ask"],
       ["Your profile", "Jouw profiel", "Competencies", "Competenties"]]
  | SectionName.what_we_offer =>
      [["Wat bieden wij", "What we offer", "What do we offer", "Wat krijg je ervoor terug"]]
  | SectionName.employment_conditions =>
      [["Arbeidsvoorwaarden", "Employment conditions", "Salary", "Salaris"]]
  | SectionName.application_process =>
      [["Solliciteren", "Apply", "Application", "How to apply", "Bijzonderheden"]]

def lineMatchesSection (line : PyStr) (s : SectionName) : Bool :=
  (sectionPatterns s).any (fun alts => regexSearchCI alts line)

/-- First section (in table order) one of whose patterns matches the
line; `none` when no pattern matches (lines 742-758). -/
def findSection (line : PyStr) : Option SectionName :=
  sectionOrder.find? (lineMatchesSection line)

/-- The `sections` dict initialised at lines 703-709: all five keys
present, values (strings) possibly empty. -/
structure SectionsAcc where
  job_description : PyStr
  requirements : PyStr
  what_we_offer : PyStr
  employment_conditions : PyStr
  application_process : PyStr
deriving DecidableEq

def emptySections : SectionsAcc := ⟨[], [], [], [], []⟩

def getSec (a : SectionsAcc) : SectionName → PyStr
  | SectionName.job_description => a.job_description
  | SectionName.requirements => a.requirements
  | SectionName.what_we_offer => a.what_we_offer
  | SectionName.employment_conditions => a.employment_conditions
  | SectionName.application_process => a.application_process

def setSec (a : SectionsAcc) (s : SectionName) (v : PyStr) : SectionsAcc :=
  match s with
  | SectionName.job_description =>
      ⟨v, a.requirements, a.what_we_offer, a.employment_conditions, a.application_process⟩
  | SectionName.requirements =>
      ⟨a.job_description, v, a.what_we_offer, a.employment_conditions, a.application_process⟩
  | SectionName.what_we_offer =>
      ⟨a.job_description, a.requirements, v, a.employment_conditions, a.application_process⟩
  | SectionName.employment_conditions =>
      ⟨a.job_description, a.requirements, a.what_we_offer, v, a.application_process⟩
  | SectionName.application_process =>
      ⟨a.job_description, a.requirements, a.what_we_offer, a.employment_conditions, v⟩

/-- State of the segmentation loop: `current_section`, `current_content`
(the buffer of lines) and the `sections` dict (lines 732-734). -/
structure SegState where
  cur : SectionName
  buf : List PyStr
  secs : SectionsAcc
deriving DecidableEq

def initSeg : SegState := ⟨SectionName.job_description, [], emptySections⟩

/-- Model of `sections[current_section] = "\n".join(current_content).strip()`
(lines 748-751 and 764-765). -/
def flushBuf (st : SegState) : SectionsAcc :=
  setSec st.secs st.cur (stripChars (pyJoinNl st.buf))

/-- One iteration of the `for line in lines` loop body for a non-empty
stripped line (lines 742-761): on a pattern match, flush the buffer when
it is non-empty, switch section and restart the buffer with the
triggering line; otherwise append the line to the buffer. -/
def segStep (st : SegState) (line : PyStr) : SegState :=
  match findSection line with
  | some s => ⟨s, [line], if st.buf.isEmpty then st.secs else flushBuf st⟩
  | none => ⟨st.cur, st.buf ++ [line], st.secs⟩

def segRun (st : SegState) (ls : List PyStr) : SegState := ls.foldl segStep st

/-- Final flush after the loop (lines 763-765). -/
def segFinish (st : SegState) : SectionsAcc :=
  if st.buf.isEmpty then st.secs else flushBuf st

/-- Model of `lines = content_text.split("\n")`: each line stripped, empty lines
skipped (lines 736-740). -/
def cleanLines (raw : PyStr) : List PyStr :=
  ((pySplitChar '\n' raw).map stripChars).filter (fun l => !l.isEmpty)

/-- The whole section-segmentation pass of `extract_structured_job_info`
(lines 732-767) on a raw content string. -/
def segmentContent (raw : PyStr) : SectionsAcc :=
  segFinish (segRun initSeg (cleanLines raw))

/-- The `structured_content` value: mapping from the five fixed section
names to the text assigned to each. -/
structure StructuredContent where
  job_description : String
  requirements : String
  what_we_offer : String
  employment_conditions : String
  application_process : String
deriving DecidableEq

/-- String-level wrapper of the segmentation pass. -/
def extract_sections (content_text : String) : StructuredContent :=
  let a := segmentContent content_text.data
  ⟨String.mk a.job_description, String.mk a.requirements, String.mk a.what_we_offer,
   String.mk a.employment_conditions, String.mk a.application_process⟩

/-! ### Utility lemmas about the embedded Python string operations -/

theorem stripChars_sublist (l : PyStr) : (stripChars l).Sublist l := by
  unfold stripChars
  have h1 : (((l.dropWhile isSpaceChar).reverse.dropWhile isSpaceChar).reverse).Sublist
      (l.dropWhile isSpaceChar).reverse.reverse := by
    exact List.reverse_sublist.mpr (List.dropWhile_sublist _)
  rw [List.reverse_reverse] at h1
  exact h1.trans (List.dropWhile_sublist _)

theorem dropWhile_head_not (p : Char → Bool) (l : List Char) (c : Char) (cs : List Char)
    (h : l.dropWhile p = c :: cs) : p c = false := by
  induction l with
  | nil => cases h
  | cons x xs ih =>
    rw [List.dropWhile_cons] at h
    by_cases hx : p x
    · rw [if_pos hx] at h; exact ih h
    · rw [if_neg hx] at h
      cases h
      simpa using hx

theorem stripChars_head_not_space (l : PyStr) (c : Char) (cs : PyStr)
    (h : stripChars l = c :: cs) : isSpaceChar c = false := by
  unfold stripChars at h
  have h1 : ((l.dropWhile isSpaceChar).reverse.dropWhile isSpaceChar).getLast? = some c := by
    rw [← List.head?_reverse, h]
    rfl
  have hsuf : ((l.dropWhile isSpaceChar).reverse.dropWhile isSpaceChar).IsSuffix
      (l.dropWhile isSpaceChar).reverse := List.dropWhile_suffix _
  obtain ⟨t, ht⟩ := hsuf
  have hne : (l.dropWhile isSpaceChar).reverse.dropWhile isSpaceChar ≠ [] := by
    intro hnil; rw [hnil] at h1; cases h1
  have h2 : ((l.dropWhile isSpaceChar).reverse).getLast? = some c := by
    rw [← ht, List.getLast?_append_of_ne_nil _ hne]; exact h1
  rw [List.getLast?_reverse] at h2
  rcases hd : l.dropWhile isSpaceChar with _ | ⟨d, ds⟩
  · rw [hd] at h2; cases h2
  · rw [hd] at h2
    have : d = c := by simpa using h2
    subst this
    exact dropWhile_head_not _ _ _ _ hd

theorem stripChars_getLast_not_space (l : PyStr) (c : Char)
    (h : (stripChars l).getLast? = some c) : isSpaceChar c = false := by
  unfold stripChars at h
  rw [List.getLast?_reverse] at h
  rcases hd : (l.dropWhile isSpaceChar).reverse.dropWhile isSpaceChar with _ | ⟨d, ds⟩
  · rw [hd] at h; cases h
  · rw [hd] at h
    have : d = c := by simpa using h
    subst this
    exact dropWhile_head_not _ _ _ _ hd

theorem stripChars_eq_self (l : PyStr)
    (h1 : ∀ c ∈ l.head?, isSpaceChar c = false)
    (h2 : ∀ c ∈ l.getLast?, isSpaceChar c = false) : stripChars l = l := by
  rcases l with _ | ⟨x, xs⟩
  · rfl
  · unfold stripChars
    have hx : isSpaceChar x = false := h1 x rfl
    rw [List.dropWhile_cons, hx]
    simp only [Bool.false_eq_true, if_false]
    rcases hr : (x :: xs).reverse with _ | ⟨y, ys⟩
    · exact absurd hr (by simp)
    · have hy : isSpaceChar y = false := by
        apply h2
        rw [← List.head?_reverse, hr]
        rfl
      rw [List.dropWhile_cons, hy]
      simp only [Bool.false_eq_true, if_false]
      rw [← hr, List.reverse_reverse]

theorem stripChars_idem (l : PyStr) : stripChars (stripChars l) = stripChars l := by
  apply stripChars_eq_self
  · intro c hc
    rcases hs : stripChars l with _ | ⟨d, ds⟩
    · rw [hs] at hc; cases hc
    · rw [hs] at hc
      have : d = c := by simpa using hc
      subst this
      exact stripChars_head_not_space _ _ _ hs
  · intro c hc
    exact stripChars_getLast_not_space _ _ (Option.mem_def.mp hc)

theorem splitOnP_mem_not (p : Char → Bool) (xs : List Char) :
    ∀ piece ∈ xs.splitOnP p, ∀ a ∈ piece, p a = false := by
  induction xs with
  | nil =>
    intro piece hp a ha
    simp only [List.splitOnP_nil, List.mem_singleton] at hp
    subst hp; cases ha
  | cons x xs ih =>
    intro piece hp a ha
    rw [List.splitOnP_cons] at hp
    by_cases hx : p x
    · rw [if_pos hx] at hp
      rcases List.mem_cons.mp hp with h | h
      · subst h; cases ha
      · exact ih piece h a ha
    · rw [if_neg hx] at hp
      rcases hsp : xs.splitOnP p with _ | ⟨h, t⟩
      · exact absurd hsp (List.splitOnP_ne_nil p xs)
      · rw [hsp, List.modifyHead_cons] at hp
        rcases List.mem_cons.mp hp with h1 | h2
        · subst h1
          rcases List.mem_cons.mp ha with rfl | ha'
          · simpa using hx
          · exact ih h (by rw [hsp]; exact List.mem_cons_self h t) a ha'
        · exact ih piece (by rw [hsp]; exact List.mem_cons_of_mem _ h2) a ha

theorem mem_splitOn_not_sep (sep : Char) (xs : List Char) :
    ∀ piece ∈ pySplitChar sep xs, sep ∉ piece := by
  intro piece hp hmem
  have := splitOnP_mem_not (· == sep) xs piece hp sep hmem
  simp at this

theorem intercalate_pair (x : Char) (b r : PyStr) (rs : List PyStr) :
    List.intercalate [x] (b :: r :: rs) = b ++ x :: List.intercalate [x] (r :: rs) := by
  simp [List.intercalate, List.intersperse_cons_cons, List.flatten_cons]

theorem intercalate_single (x : Char) (b : PyStr) : List.intercalate [x] [b] = b := by
  simp [List.intercalate]

theorem pyJoinNl_head? (b : PyStr) (bs : List PyStr) (hb : b ≠ []) :
    (pyJoinNl (b :: bs)).head? = b.head? := by
  rcases bs with _ | ⟨r, rs⟩
  · rw [pyJoinNl, intercalate_single]
  · rw [pyJoinNl, intercalate_pair]
    exact List.head?_append_of_ne_nil _ hb

theorem pyJoinNl_ne_nil (b : PyStr) (bs : List PyStr) (hb : b ≠ []) :
    pyJoinNl (b :: bs) ≠ [] := by
  intro h
  have h1 := pyJoinNl_head? b bs hb
  rw [h] at h1
  rcases b with _ | ⟨c, cs⟩
  · exact hb rfl
  · cases h1

/-- Every line put into the segmentation buffer is non-empty, newline-free
and already stripped. -/
def wfLine (x : PyStr) : Prop := x ≠ [] ∧ '\n' ∉ x ∧ stripChars x = x

theorem pyJoinNl_getLast? (bs : List PyStr) : ∀ b : PyStr, (∀ x ∈ b :: bs, x ≠ []) →
    ∃ t ∈ b :: bs, (pyJoinNl (b :: bs)).getLast? = t.getLast? := by
  induction bs with
  | nil =>
    intro b _
    exact ⟨b, by simp, by rw [pyJoinNl, intercalate_single]⟩
  | cons r rs ih =>
    intro b hb
    obtain ⟨t, ht, hlast⟩ := ih r (fun x hx => hb x (List.mem_cons_of_mem _ hx))
    refine ⟨t, List.mem_cons_of_mem _ ht, ?_⟩
    rw [pyJoinNl, intercalate_pair]
    have hrne : pyJoinNl (r :: rs) ≠ [] := pyJoinNl_ne_nil r rs (hb r (by simp))
    rw [List.getLast?_append_of_ne_nil _ (by simp), ← hlast, ← pyJoinNl]
    have : (x : Char) → (l : PyStr) → l ≠ [] → (x :: l).getLast? = l.getLast? := by
      intro x l hl
      rcases l with _ | ⟨y, ys⟩
      · exact absurd rfl hl
      · exact List.getLast?_cons_cons
    exact this '\n' _ hrne

theorem stripChars_pyJoinNl (b : PyStr) (bs : List PyStr)
    (h : ∀ x ∈ b :: bs, wfLine x) : stripChars (pyJoinNl (b :: bs)) = pyJoinNl (b :: bs) := by
  apply stripChars_eq_self
  · intro c hc
    have hbw := h b (by simp)
    rw [pyJoinNl_head? b bs hbw.1] at hc
    rcases hd : b with _ | ⟨d, ds⟩
    · exact absurd hd hbw.1
    · rw [hd] at hc
      have : d = c := by simpa using hc
      subst this
      have := hbw.2.2
      rw [hd] at this
      exact stripChars_head_not_space _ _ _ this
  · intro c hc
    obtain ⟨t, ht, hlast⟩ := pyJoinNl_getLast? bs b (fun x hx => (h x hx).1)
    rw [hlast] at hc
    have htw := h t ht
    apply stripChars_getLast_not_space t
    rw [htw.2.2]
    exact Option.mem_def.mp hc

theorem pySplitChar_pyJoinNl (bs : List PyStr) (hne : bs ≠ [])
    (h : ∀ x ∈ bs, '\n' ∉ x) : pySplitChar '\n' (pyJoinNl bs) = bs := by
  unfold pySplitChar pyJoinNl
  exact List.splitOn_intercalate bs '\n' h hne

theorem cleanLines_wf (raw : PyStr) : ∀ x ∈ cleanLines raw, wfLine x := by
  intro x hx
  unfold cleanLines at hx
  have hmem := List.mem_of_mem_filter hx
  have hne : x ≠ [] := by
    have := List.of_mem_filter hx
    simpa [List.isEmpty_iff] using this
  obtain ⟨p, hp, hpx⟩ := List.mem_map.mp hmem
  refine ⟨hne, ?_, ?_⟩
  · intro hnl
    exact mem_splitOn_not_sep '\n' raw p hp ((hpx ▸ (stripChars_sublist p).subset) hnl)
  · rw [← hpx]
    exact stripChars_idem p

/-! ### Flush instrumentation for the segmentation loop

`flushLog` records, in order, every write `sections[current_section] =
"\n".join(current_content).strip()` performed by the loop of lines
742-765, as the pair (target section, buffer of lines written). -/

def stepEvents (st : SegState) (line : PyStr) : List (SectionName × List PyStr) :=
  match findSection line with
  | some _ => if st.buf.isEmpty then [] else [(st.cur, st.buf)]
  | none => []

def flushLog : SegState → List PyStr → List (SectionName × List PyStr)
  | st, [] => if st.buf.isEmpty then [] else [(st.cur, st.buf)]
  | st, l :: ls => stepEvents st l ++ flushLog (segStep st l) ls

/-- The sections written to, in write order, while segmenting `raw`
(final flush included). -/
def flushTargets (raw : PyStr) : List SectionName :=
  (flushLog initSeg (cleanLines raw)).map Prod.fst

/-- Last value associated to `s` in an association list (the surviving
write, since later flushes overwrite earlier ones). -/
def lastEntry (s : SectionName) : List (SectionName × List PyStr) → Option (List PyStr)
  | [] => none
  | e :: rest =>
    match lastEntry s rest with
    | some b => some b
    | none => if e.1 = s then some e.2 else none

theorem segRun_append (st : SegState) (ls : List PyStr) (l : PyStr) :
    segRun st (ls ++ [l]) = segStep (segRun st ls) l := by
  simp [segRun, List.foldl_append]

theorem segStep_buf_ne (st : SegState) (l : PyStr) : (segStep st l).buf ≠ [] := by
  unfold segStep
  cases findSection l <;> simp

theorem segRun_buf_ne (st : SegState) (ls : List PyStr) (h : ls ≠ []) :
    (segRun st ls).buf ≠ [] := by
  induction ls using List.reverseRecOn with
  | nil => exact absurd rfl h
  | append_singleton ls l _ =>
    rw [segRun_append]
    exact segStep_buf_ne _ _

theorem getSec_setSec (a : SectionsAcc) (t s : SectionName) (v : PyStr) :
    getSec (setSec a t v) s = if t = s then v else getSec a s := by
  cases t <;> cases s <;> simp [getSec, setSec]

theorem getSec_empty (s : SectionName) : getSec emptySections s = [] := by
  cases s <;> rfl

theorem flushLog_flatten (ls : List PyStr) : ∀ st : SegState,
    ((flushLog st ls).map Prod.snd).flatten = st.buf ++ ls := by
  induction ls with
  | nil =>
    intro st
    unfold flushLog
    by_cases h : st.buf.isEmpty
    · rw [if_pos h]
      simp [List.isEmpty_iff.mp h]
    · rw [if_neg h]
      simp
  | cons l ls ih =>
    intro st
    rw [flushLog, List.map_append, List.flatten_append, ih]
    unfold stepEvents segStep
    cases hf : findSection l
    · simp
    · by_cases hb : st.buf.isEmpty
      · simp [hb, List.isEmpty_iff.mp hb]
      · simp [hb]

theorem lastEntry_append (s : SectionName) (xs ys : List (SectionName × List PyStr)) :
    lastEntry s (xs ++ ys) =
      match lastEntry s ys with
      | some b => some b
      | none => lastEntry s xs := by
  induction xs with
  | nil =>
    rcases h : lastEntry s ys with _ | b <;> simp [lastEntry, h]
  | cons e xs ih =>
    rw [List.cons_append, lastEntry, ih, lastEntry]
    cases lastEntry s ys <;> cases lastEntry s xs <;> simp

theorem lastEntry_mem (s : SectionName) (log : List (SectionName × List PyStr))
    (b : List PyStr) (h : lastEntry s log = some b) : (s, b) ∈ log := by
  induction log with
  | nil => cases h
  | cons e rest ih =>
    rw [lastEntry] at h
    rcases hle : lastEntry s rest with _ | b'
    · rw [hle] at h
      by_cases he : e.1 = s
      · rw [if_pos he] at h
        have hb : e.2 = b := by simpa using h
        have heq : (s, b) = e := by rw [← he, ← hb]
        rw [heq]
        exact List.mem_cons_self e rest
      · rw [if_neg he] at h
        cases h
    · rw [hle] at h
      have hb : b' = b := by simpa using h
      subst hb
      exact List.mem_cons_of_mem _ (ih hle)

theorem lastEntry_eq_none (s : SectionName) (log : List (SectionName × List PyStr))
    (h : s ∉ log.map Prod.fst) : lastEntry s log = none := by
  induction log with
  | nil => rfl
  | cons e rest ih =>
    rw [lastEntry, ih (fun hc => h (by simp [hc]))]
    have he : e.1 ≠ s := by
      intro hc
      exact h (by simp [hc])
    rw [if_neg he]

theorem segFinal_getSec (ls : List PyStr) : ∀ (st : SegState) (s : SectionName),
    getSec (segFinish (segRun st ls)) s =
      match lastEntry s (flushLog st ls) with
      | some b => stripChars (pyJoinNl b)
      | none => getSec st.secs s := by
  induction ls with
  | nil =>
    intro st s
    show getSec (segFinish st) s = _
    unfold segFinish flushLog
    by_cases hb : st.buf.isEmpty
    · rw [if_pos hb, if_pos hb]
      rfl
    · rw [if_neg hb, if_neg hb]
      unfold flushBuf
      rw [getSec_setSec]
      by_cases hcs : st.cur = s
      · rw [if_pos hcs]
        show _ = match (if st.cur = s then some st.buf else none) with
          | some b => stripChars (pyJoinNl b)
          | none => getSec st.secs s
        rw [if_pos hcs]
      · rw [if_neg hcs]
        show _ = match (if st.cur = s then some st.buf else none) with
          | some b => stripChars (pyJoinNl b)
          | none => getSec st.secs s
        rw [if_neg hcs]
  | cons l ls ih =>
    intro st s
    have hrun : segRun st (l :: ls) = segRun (segStep st l) ls := rfl
    rw [hrun, ih, flushLog, lastEntry_append]
    rcases h2 : lastEntry s (flushLog (segStep st l) ls) with _ | b
    · unfold stepEvents segStep
      rcases hf : findSection l with _ | s0
      · simp [lastEntry]
      · by_cases hb : st.buf.isEmpty
        · simp [hb, lastEntry]
        · by_cases hcs : st.cur = s <;>
            simp [hb, hcs, lastEntry, flushBuf, getSec_setSec]
    · rfl

theorem flushLog_wf (ls : List PyStr) : ∀ st : SegState,
    (∀ x ∈ st.buf, wfLine x) → (∀ x ∈ ls, wfLine x) →
    ∀ e ∈ flushLog st ls, e.2 ≠ [] ∧ ∀ x ∈ e.2, wfLine x := by
  induction ls with
  | nil =>
    intro st hbuf _ e he
    unfold flushLog at he
    by_cases hb : st.buf.isEmpty
    · rw [if_pos hb] at he
      cases he
    · rw [if_neg hb] at he
      rcases List.mem_singleton.mp he with rfl
      exact ⟨fun hc => hb (by simpa [List.isEmpty_iff] using hc), hbuf⟩
  | cons l ls ih =>
    intro st hbuf hls e he
    rw [flushLog] at he
    rcases List.mem_append.mp he with h1 | h2
    · unfold stepEvents at h1
      rcases hf : findSection l with _ | s0 <;> rw [hf] at h1
      · cases h1
      · by_cases hb : st.buf.isEmpty
        · rw [if_pos hb] at h1
          cases h1
        · rw [if_neg hb] at h1
          rcases List.mem_singleton.mp h1 with rfl
          exact ⟨fun hc => hb (by simpa [List.isEmpty_iff] using hc), hbuf⟩
    · have hbuf' : ∀ x ∈ (segStep st l).buf, wfLine x := by
        intro x hx
        unfold segStep at hx
        rcases hf : findSection l with _ | s0 <;> rw [hf] at hx
        · rcases List.mem_append.mp hx with hx1 | hx2
          · exact hbuf x hx1
          · rcases List.mem_singleton.mp hx2 with rfl
            exact hls x (by simp)
        · rcases List.mem_singleton.mp hx with rfl
          exact hls x (by simp)
      exact ih (segStep st l) hbuf' (fun x hx => hls x (List.mem_cons_of_mem _ hx)) e h2

/-- The lines of one stored section value, recovered by splitting on the
newline that `"\n".join` inserted; an empty value holds no lines. -/
def linesOfSection (s : PyStr) : List PyStr :=
  if s.isEmpty then [] else pySplitChar '\n' s

/-- All lines stored across the five `structured_content` values, in
section-table order. -/
def allSectionLines (a : SectionsAcc) : List PyStr :=
  (sectionOrder.map (fun s => linesOfSection (getSec a s))).flatten

theorem linesOfSection_final (raw : PyStr) (s : SectionName) :
    linesOfSection (getSec (segmentContent raw) s) =
      match lastEntry s (flushLog initSeg (cleanLines raw)) with
      | some b => b
      | none => [] := by
  have h2 := segFinal_getSec (cleanLines raw) initSeg s
  rw [segmentContent, h2]
  rcases hle : lastEntry s (flushLog initSeg (cleanLines raw)) with _ | b
  · simp [linesOfSection, initSeg, getSec_empty]
  · have hmem := lastEntry_mem s _ b hle
    have hwf := flushLog_wf (cleanLines raw) initSeg (by intro x hx; cases hx)
      (cleanLines_wf raw) (s, b) hmem
    rcases hb : b with _ | ⟨b0, bs⟩
    · exact absurd hb hwf.1
    · have hwf' : ∀ x ∈ b0 :: bs, wfLine x := by
        intro x hx; exact hwf.2 x (hb ▸ hx)
      show linesOfSection (stripChars (pyJoinNl (b0 :: bs))) = b0 :: bs
      rw [stripChars_pyJoinNl b0 bs hwf']
      have hjne : pyJoinNl (b0 :: bs) ≠ [] := pyJoinNl_ne_nil b0 bs (hwf' b0 (by simp)).1
      rw [linesOfSection, if_neg (by simpa [List.isEmpty_iff] using hjne)]
      exact pySplitChar_pyJoinNl (b0 :: bs) (by simp) (fun x hx => (hwf' x hx).2.1)

theorem mem_sectionOrder (s : SectionName) : s ∈ sectionOrder := by
  cases s <;> simp [sectionOrder]

theorem sectionOrder_nodup : sectionOrder.Nodup := by decide

theorem map_flatten_congr (L : List SectionName) (f g : SectionName → List PyStr)
    (h : ∀ s ∈ L, f s = g s) : (L.map f).flatten = (L.map g).flatten := by
  induction L with
  | nil => rfl
  | cons b L ih =>
    simp only [List.map_cons, List.flatten_cons]
    rw [h b (by simp), ih (fun s hs => h s (List.mem_cons_of_mem _ hs))]

theorem flatten_update_perm (L : List SectionName) (g : SectionName → List PyStr)
    (a : SectionName) (v : List PyStr) (hnd : L.Nodup) (ha : a ∈ L) (hga : g a = []) :
    ((L.map (fun s => if s = a then v else g s)).flatten).Perm (v ++ (L.map g).flatten) := by
  induction L with
  | nil => cases ha
  | cons b L ih =>
    by_cases hba : b = a
    · subst hba
      have hnotin : b ∉ L := (List.nodup_cons.mp hnd).1
      have heq : (L.map (fun s => if s = b then v else g s)).flatten = (L.map g).flatten := by
        apply map_flatten_congr
        intro s hs
        have hsb : s ≠ b := fun hc => hnotin (hc ▸ hs)
        rw [if_neg hsb]
      rw [List.map_cons, List.flatten_cons, if_pos rfl, heq, List.map_cons,
        List.flatten_cons, hga, List.nil_append]
    · have ha' : a ∈ L := by
        rcases List.mem_cons.mp ha with h | h
        · exact absurd h.symm hba
        · exact h
      have ih' := ih (List.nodup_cons.mp hnd).2 ha'
      rw [List.map_cons, List.flatten_cons, if_neg hba, List.map_cons, List.flatten_cons]
      have step1 : (g b ++ (L.map (fun s => if s = a then v else g s)).flatten).Perm
          (g b ++ (v ++ (L.map g).flatten)) := List.Perm.append_left _ ih'
      have step2 : (g b ++ (v ++ (L.map g).flatten)).Perm
          (v ++ (g b ++ (L.map g).flatten)) := by
        rw [← List.append_assoc, ← List.append_assoc]
        exact List.Perm.append_right _ List.perm_append_comm
      exact step1.trans step2

theorem flatten_lastEntry_perm (log : List (SectionName × List PyStr))
    (hnd : (log.map Prod.fst).Nodup) :
    ((sectionOrder.map (fun s => (lastEntry s log).getD [])).flatten).Perm
      ((log.map Prod.snd).flatten) := by
  induction log with
  | nil => simp [lastEntry]
  | cons e rest ih =>
    have hmap : (e :: rest).map Prod.fst = e.1 :: rest.map Prod.fst := rfl
    rw [hmap] at hnd
    have hne : e.1 ∉ rest.map Prod.fst := (List.nodup_cons.mp hnd).1
    have hnd' := (List.nodup_cons.mp hnd).2
    have hle : lastEntry e.1 rest = none := lastEntry_eq_none e.1 rest hne
    have hfun : ∀ s ∈ sectionOrder, (lastEntry s (e :: rest)).getD [] =
        (if s = e.1 then e.2 else (lastEntry s rest).getD []) := by
      intro s _
      by_cases hs : s = e.1
      · subst hs
        simp [lastEntry, hle]
      · rcases h : lastEntry s rest with _ | b
        · simp [lastEntry, h, hs, Ne.symm hs]
        · simp [lastEntry, h, hs]
    rw [map_flatten_congr sectionOrder _ _ hfun]
    have hperm := flatten_update_perm sectionOrder (fun s => (lastEntry s rest).getD [])
      e.1 e.2 sectionOrder_nodup (mem_sectionOrder e.1) (by show (lastEntry e.1 rest).getD [] = []; rw [hle]; rfl)
    refine hperm.trans ?_
    rw [List.map_cons, List.flatten_cons]
    exact List.Perm.append_left _ (ih hnd')

theorem segmentation_conservation_core (raw : PyStr)
    (hnd : (flushTargets raw).Nodup) :
    (allSectionLines (segmentContent raw)).Perm (cleanLines raw) := by
  have h1 : ∀ s ∈ sectionOrder, linesOfSection (getSec (segmentContent raw) s) =
      (lastEntry s (flushLog initSeg (cleanLines raw))).getD [] := by
    intro s _
    rw [linesOfSection_final]
    rcases h : lastEntry s (flushLog initSeg (cleanLines raw)) with _ | b <;> rfl
  rw [allSectionLines, map_flatten_congr sectionOrder _ _ h1]
  have h2 := flatten_lastEntry_perm (flushLog initSeg (cleanLines raw)) hnd
  rw [flushLog_flatten (cleanLines raw) initSeg] at h2
  simpa [initSeg] using h2

theorem segStep_some (st : SegState) (l : PyStr) (s : SectionName)
    (h : findSection l = some s) :
    segStep st l = ⟨s, [l], if st.buf.isEmpty then st.secs else flushBuf st⟩ := by
  unfold segStep
  rw [h]

/-- C8: on the raw lines `["Functieomschrijving", "line A", "Functie-eisen",
"line B"]`, segmentation yields `job_description = "Functieomschrijving\nline A"`,
`requirements = "Functie-eisen\nline B"`, and the other three sections empty. -/
theorem segmentation_two_marker_example :
    extract_sections "Functieomschrijving\nline A\nFunctie-eisen\nline B" =
      ⟨"Functieomschrijving\nline A", "Functie-eisen\nline B", "", "", ""⟩ := by
  decide

/-- C1 counterexample: the claim "the concatenation of the lines of all five
structuredContent section values reconstructs exactly the multiset of
non-empty trimmed lines of rawContent, with no line dropped" is false: when
a second line re-triggers the `job_description` section (here
`"Wat ga je doen"`), the flush overwrites the section's earlier run, and the
lines `"Functieomschrijving"` and `"X"` are dropped from every section. -/
theorem segmentation_line_conservation_cex :
    ¬ (allSectionLines (segmentContent ("Functieomschrijving\nX\nWat ga je doen\nY").data)).Perm
      (cleanLines ("Functieomschrijving\nX\nWat ga je doen\nY").data) := by
  decide

/-- C1 (amended): provided no section is flushed more than once during the
run (the list of flush targets, final flush included, has no duplicates),
the concatenation of the lines of all five `structuredContent` section
values reconstructs exactly the multiset of non-empty trimmed lines of
`rawContent`: no line is duplicated and no line is dropped.  (When a
section is triggered repeatedly, its earlier run is overwritten and those
lines are lost, as the counterexample shows.) -/
theorem segmentation_line_conservation_of_nodup_flushes (raw : String)
    (hnd : (flushTargets raw.data).Nodup) :
    (allSectionLines (segmentContent raw.data)).Perm (cleanLines raw.data) :=
  segmentation_conservation_core raw.data hnd

theorem segmentation_line_conservation_of_nodup_flushes_witness :
    (flushTargets ("Functieomschrijving\nEen regel").data).Nodup ∧
    (allSectionLines (segmentContent ("Functieomschrijving\nEen regel").data)).Perm
      (cleanLines ("Functieomschrijving\nEen regel").data) :=
  ⟨by decide,
   segmentation_line_conservation_of_nodup_flushes "Functieomschrijving\nEen regel" (by decide)⟩

/-- C2: during segmentation of any input, when a line matches a section's
pattern, the buffer joined with newline (and stripped, as the code does) is
flushed into `structuredContent[currentSection]`, overwriting whatever that
section previously held (hence only the last run for a repeated section
survives); the matched section becomes current and the triggering line is
the sole (hence first) line of the new buffer.  The code skips the flush
when the buffer is empty, but that only happens before any line was
processed, where the unconditional overwrite stores the empty string a
fresh `sections` dict already holds, so the two behaviours agree. -/
theorem segStep_match_flushes_and_overwrites (pre : List PyStr) (l : PyStr) (s : SectionName)
    (h : findSection l = some s) :
    segRun initSeg (pre ++ [l]) =
      ⟨s, [l], setSec (segRun initSeg pre).secs (segRun initSeg pre).cur
        (stripChars (pyJoinNl (segRun initSeg pre).buf))⟩ := by
  rw [segRun_append, segStep_some _ _ _ h]
  by_cases hp : pre = []
  · subst hp
    rfl
  · have hb := segRun_buf_ne initSeg pre hp
    rw [if_neg (by simpa [List.isEmpty_iff] using hb)]
    rfl

theorem segStep_match_flushes_and_overwrites_witness :
    findSection ("Functie-eisen".data) = some SectionName.requirements ∧
    segRun initSeg (["Intro tekst".data] ++ ["Functie-eisen".data]) =
      ⟨SectionName.requirements, ["Functie-eisen".data],
        setSec (segRun initSeg ["Intro tekst".data]).secs
          (segRun initSeg ["Intro tekst".data]).cur
          (stripChars (pyJoinNl (segRun initSeg ["Intro tekst".data]).buf))⟩ :=
  ⟨by decide,
   segStep_match_flushes_and_overwrites ["Intro tekst".data] ("Functie-eisen".data)
     SectionName.requirements (by decide)⟩

/-! ### Translator Adapter: `GroqTranslator.translate_text` (lines 37-87)

The single remote interaction (the `chat.completions.create` call plus the
`choices[0].message.content` extraction, lines 75-82) is abstracted as an
oracle `remote : String → Except Unit String` applied to the prompt:
`Except.ok content` when the call returns and a message text is extracted,
`Except.error ()` when anything in that block raises (network failure, API
error, malformed response).  Everything around the oracle is the function's
own code. -/

/-- The `lang_names` dict (lines 54-61). -/
def lang_names : List (String × String) :=
  [("nl", "Dutch"), ("en", "English"), ("de", "German"),
   ("fr", "French"), ("es", "Spanish"), ("it", "Italian")]

/-- Model of `lang_names.get(code, code)` (lines 63-64). -/
def langName (code : String) : String :=
  match lang_names.find? (fun p => p.1 == code) with
  | some p => p.2
  | none => code

/-- Python `s.strip()` at the `String` level. -/
def pyStrip (s : String) : String := String.mk (stripChars s.data)

/-- The prompt f-string (lines 66-72). -/
def buildPrompt (source_lang target_lang text : String) : String :=
  "Translate the following " ++ langName source_lang ++ " text to " ++
    langName target_lang ++
    ". \nProvide only the translation, no explanations or additional text.\n\nText to translate:\n" ++
    text ++ "\n\nTranslation:"

/-- Model of `GroqTranslator.translate_text` (lines 37-87), instrumented: the second
component records whether the remote API was invoked.  `not text or not
text.strip()` short-circuits to the input (lines 50-51); a successful remote
call returns the stripped message content (lines 82-83); any exception is
caught, reported, and the original text is returned (lines 85-87). -/
def translate_text_instr (remote : String → Except Unit String)
    (text source_lang target_lang : String) : String × Bool :=
  if text = "" ∨ pyStrip text = "" then (text, false)
  else
    match remote (buildPrompt source_lang target_lang text) with
    | Except.ok content => (pyStrip content, true)
    | Except.error _ => (text, true)

/-- Model of `GroqTranslator.translate_text` proper: the string it returns. -/
def translate_text (remote : String → Except Unit String)
    (text source_lang target_lang : String) : String :=
  (translate_text_instr remote text source_lang target_lang).1

/-- A remote oracle whose call always fails. -/
def failRemote : String → Except Unit String := fun _ => Except.error ()

/-- A remote oracle whose call always succeeds. -/
def okRemote : String → Except Unit String := fun _ => Except.ok "vertaalde tekst"

/-- C5: whenever the remote call fails, the Translator Adapter returns the
original input text unchanged; since its result type is `String` (not
`Except`), by construction no failure is ever propagated to the caller as
an exception or error value — the failure is only printed. -/
theorem translate_text_degrades_to_original_on_failure
    (remote : String → Except Unit String) (text source_lang target_lang : String)
    (h : remote (buildPrompt source_lang target_lang text) = Except.error ()) :
    translate_text remote text source_lang target_lang = text := by
  unfold translate_text translate_text_instr
  by_cases h0 : text = "" ∨ pyStrip text = ""
  · rw [if_pos h0]
  · rw [if_neg h0, h]

theorem translate_text_degrades_to_original_on_failure_witness :
    failRemote (buildPrompt "nl" "en" "hallo wereld") = Except.error () ∧
    translate_text failRemote "hallo wereld" "nl" "en" = "hallo wereld" :=
  ⟨rfl, translate_text_degrades_to_original_on_failure failRemote
    "hallo wereld" "nl" "en" rfl⟩

/-- C6: for empty or all-whitespace input the Translator Adapter returns the
input unchanged and does not invoke the remote translation API. -/
theorem translate_text_whitespace_no_remote_call
    (remote : String → Except Unit String) (text source_lang target_lang : String)
    (h : pyStrip text = "") :
    translate_text_instr remote text source_lang target_lang = (text, false) := by
  unfold translate_text_instr
  rw [if_pos (Or.inr h)]

theorem translate_text_whitespace_no_remote_call_witness :
    pyStrip "  " = "" ∧
    translate_text_instr failRemote "  " "nl" "en" = ("  ", false) :=
  ⟨by decide, translate_text_whitespace_no_remote_call failRemote "  " "nl" "en" (by decide)⟩

/-! ### Company-info extraction (lines 661-671) -/

/-- Python `s.replace(old, new)` for non-empty `old`: scan left to right,
replacing non-overlapping occurrences. -/
def replaceChars (pat rep : List Char) : List Char → List Char
  | [] => []
  | c :: cs =>
    if _hpre : pat ≠ [] ∧ pat.isPrefixOf (c :: cs) = true then
      rep ++ replaceChars pat rep (List.drop pat.length (c :: cs))
    else
      c :: replaceChars pat rep cs
termination_by l => l.length
decreasing_by
  · have hp : 0 < pat.length := List.length_pos.mpr _hpre.1
    simp only [List.length_drop, List.length_cons]
    omega
  · simp only [List.length_cons]
    omega

/-- Python `s.replace(old, new)` at the `String` level. -/
def pyReplace (s pat rep : String) : String :=
  String.mk (replaceChars pat.data rep.data s.data)

/-- The `company_info` mapping: keys `name`, `location`, `posting_date`
(and, after translation, `name_en`), all optional. -/
structure CompanyInfo where
  name : Option String
  location : Option String
  posting_date : Option String
  name_en : Option String
deriving DecidableEq

def emptyCompanyInfo : CompanyInfo := ⟨none, none, none, none⟩

/-- Company-info parsing (lines 663-671): split the element's text on `·`,
strip each part; when at least 3 parts are present set the name, the
location (with the literal `"Standplaats: "` removed) and the posting
date; otherwise set none of the fields. -/
def parse_company_info (company_text : String) : CompanyInfo :=
  let parts := (pySplitChar '·' company_text.data).map stripChars
  if parts.length ≥ 3 then
    ⟨some (String.mk (parts.getD 0 [])),
     some (pyReplace (String.mk (parts.getD 1 [])) "Standplaats: " ""),
     some (String.mk (parts.getD 2 [])), none⟩
  else emptyCompanyInfo

/-- C7: when the company text splits into fewer than 3 `·`-separated parts,
`name`, `location` and `posting_date` are all left absent — the three
fields are never partially populated. -/
theorem company_info_no_partial_population (company_text : String)
    (h : (pySplitChar '·' company_text.data).length < 3) :
    parse_company_info company_text = emptyCompanyInfo := by
  simp only [parse_company_info]
  rw [if_neg]
  rw [List.length_map]
  omega

theorem company_info_no_partial_population_witness :
    (pySplitChar '·' ("Acme BV").data).length < 3 ∧
    parse_company_info "Acme BV" = emptyCompanyInfo :=
  ⟨by decide, company_info_no_partial_population "Acme BV" (by decide)⟩

/-! ### Record-translation orchestrator: `translate_structured_job_info`
(lines 776-833)

In the source, every call of the shape
`groq_translator.translate_text(source=..., target=...).translate(x)`
(lines 787-789, 793-795, 802-804, 818-820) passes keyword arguments that
`translate_text(self, text, source_lang, target_lang)` does not accept, so
each such call raises `TypeError` before any text reaches the adapter.
The whole body sits in one `try/except` (lines 784-833) that prints the
error and returns `translated_info`, i.e. whatever record was built before
the first raising statement.  Moreover `translated_info = job_info.copy()`
(line 782) is a *shallow* dict copy: the nested `company_info` and
`job_details` dicts are shared with the input, so writes such as
`translated_info["job_details"]["features_translated"] = ...` are visible
through the input record; only the top-level key `translated_sections`
(line 827) is private to the copy.

The model below returns the pair
`(input record after the call, record returned by the call)`. -/

/-- One `(original, translated, word_count)` triple of
`translated_sections` (lines 821-825). -/
structure SectionTranslation where
  original : String
  translated : String
  word_count : Nat
deriving DecidableEq

/-- The `job_details` mapping (fields used by the orchestrator). -/
structure JobDetails where
  title : Option String
  title_en : Option String
  features : Option (List (String × String))
  features_translated : Option (List (String × String))
deriving DecidableEq

/-- The job record produced by `extract_structured_job_info`, restricted to
the fields the translation orchestrator reads or writes (`url`,
`extraction_timestamp`, `contact_info` and `raw_content` are never touched
by it).  `translated_sections = none` models the key being absent. -/
structure JobRecord where
  company_info : CompanyInfo
  job_details : JobDetails
  structured_content : StructuredContent
  translated_sections : Option (List (SectionName × SectionTranslation))
deriving DecidableEq

/-- Model of `job_info["structured_content"].items()` in dict insertion order. -/
def sectionItems (sc : StructuredContent) : List (SectionName × String) :=
  [(SectionName.job_description, sc.job_description),
   (SectionName.requirements, sc.requirements),
   (SectionName.what_we_offer, sc.what_we_offer),
   (SectionName.employment_conditions, sc.employment_conditions),
   (SectionName.application_process, sc.application_process)]

/-- The sections whose text passes the `if content.strip():` test
(line 813). -/
def nonEmptySectionItems (sc : StructuredContent) : List (SectionName × String) :=
  (sectionItems sc).filter (fun e => decide (pyStrip e.2 ≠ ""))

/-- Model of `content[:3000] if len(content) > 3000 else content` (lines 815-817).
In the source this expression is computed for a non-empty section just
before the raising translate call, so its value never reaches the adapter;
it is modelled for reference. -/
def truncateForTranslation (content : String) : String :=
  if content.data.length > 3000 then String.mk (content.data.take 3000) else content

/-- Model of `len(content.split())` (line 824): Python's argument-less `split`
breaks at every whitespace character and drops empty pieces.  Like the
truncation, the expression is unreachable in the source's execution. -/
def wordCount (content : String) : Nat :=
  ((content.data.splitOnP isSpaceChar).filter (fun w => !w.isEmpty)).length

/-- Faithful model of `translate_structured_job_info` (lines 776-833); see
the section comment above.  Result: `(input record after the call, record
returned by the call)`.  Control flow: if a company name is present, the
broken call at lines 787-789 raises and the handler returns at once;
likewise for the title (793-795) and for the first feature (802-804 —
line 801 first invokes the adapter correctly on the feature's label, whose
result is then discarded by the exception).  With an empty features dict
the loop body never runs and `features_translated = {}` is written through
the shared `job_details` dict (line 808).  In the sections loop (812-825)
the first non-empty section raises at lines 818-820; only when every
section is empty is `translated_sections = {}` attached to the returned
copy (line 827). -/
def translate_structured_job_info (remote : String → Except Unit String)
    (job : JobRecord) : JobRecord × JobRecord :=
  if (job.company_info.name).isSome then
    (job, job)
  else if (job.job_details.title).isSome then
    (job, job)
  else
    match job.job_details.features with
    | some (kv :: _) =>
        let _ := translate_text remote kv.1 "nl" "en"
        (job, job)
    | some [] =>
        let job' : JobRecord :=
          ⟨job.company_info,
           ⟨job.job_details.title, job.job_details.title_en,
            job.job_details.features, some []⟩,
           job.structured_content, job.translated_sections⟩
        if nonEmptySectionItems job.structured_content = [] then
          (job', ⟨job'.company_info, job'.job_details, job'.structured_content, some []⟩)
        else (job', job')
    | none =>
        if nonEmptySectionItems job.structured_content = [] then
          (job, ⟨job.company_info, job.job_details, job.structured_content, some []⟩)
        else (job, job)

/-- C3 failing input: a record with a company name, a title, one feature
and a non-empty first section. -/
def jobAllFieldsSet : JobRecord :=
  ⟨⟨some "Acme BV", none, none, none⟩,
   ⟨some "Developer", none, some [("Dienstverband", "Fulltime")], none⟩,
   ⟨"Wij zoeken een developer", "", "", "", ""⟩,
   none⟩

/-- C3 (code bug): the orchestrator does NOT proceed past an individual
field failure.  On `jobAllFieldsSet` — with a remote oracle that would
succeed on every call — the very first field (the company name) is
translated through the broken call shape
`translate_text(source="auto", target="en").translate(...)`, which raises
`TypeError`; the unit-level `except` returns at once, so the title, the
features and the non-empty section are never translated: the returned
record contains only what preceded the first failure. -/
theorem translate_orchestrator_stops_after_first_failure :
    (translate_structured_job_info okRemote jobAllFieldsSet).2.company_info.name_en = none ∧
    (translate_structured_job_info okRemote jobAllFieldsSet).2.job_details.title_en = none ∧
    (translate_structured_job_info okRemote jobAllFieldsSet).2.job_details.features_translated
      = none ∧
    (translate_structured_job_info okRemote jobAllFieldsSet).2.translated_sections = none := by
  decide

/-- C4 failing input: a record with no company name, no title, an empty
features dict and only empty sections. -/
def jobEmptyFeatures : JobRecord :=
  ⟨⟨none, none, none, none⟩,
   ⟨none, none, some [], none⟩,
   ⟨"", "", "", "", ""⟩,
   none⟩

/-- C4 (code bug): `translate_structured_job_info` has a side effect on its
input.  `translated_info = job_info.copy()` is a shallow copy, so the write
`translated_info["job_details"]["features_translated"] = {}` (line 808,
reached when the features dict is empty) lands in the input record's own
`job_details` dict: after the call the input record has changed. -/
theorem translate_orchestrator_mutates_input :
    (translate_structured_job_info okRemote jobEmptyFeatures).1.job_details.features_translated
      = some [] ∧
    jobEmptyFeatures.job_details.features_translated = none ∧
    (translate_structured_job_info okRemote jobEmptyFeatures).1 ≠ jobEmptyFeatures := by
  decide

/-- C10 failing input: a record with a title and zero non-empty sections. -/
def jobTitleOnly : JobRecord :=
  ⟨⟨none, none, none, none⟩,
   ⟨some "Software engineer", none, none, none⟩,
   ⟨"", "", "", "", ""⟩,
   none⟩

/-- C10 (code bug): a record whose `structuredContent` has zero non-empty
sections need not come back with an empty `translated_sections` mapping:
on `jobTitleOnly` the broken title-translation call raises `TypeError`
first, the handler prints the error and returns, and the returned record
has no `translated_sections` key at all (modelled as `none`, not
`some []`). -/
theorem orchestrator_empty_sections_no_translated_mapping :
    (translate_structured_job_info okRemote jobTitleOnly).2.translated_sections = none := by
  decide

theorem dropWhile_eq_self_of_forall (p : Char → Bool) (l : List Char)
    (h : ∀ c ∈ l, p c = false) : l.dropWhile p = l := by
  rcases l with _ | ⟨c, cs⟩
  · rfl
  · rw [List.dropWhile_cons, h c (by simp)]
    simp

theorem stripChars_eq_self_of_forall (l : PyStr)
    (h : ∀ c ∈ l, isSpaceChar c = false) : stripChars l = l := by
  unfold stripChars
  rw [dropWhile_eq_self_of_forall _ _ h,
    dropWhile_eq_self_of_forall _ _ (fun c hc => h c (List.mem_reverse.mp hc)),
    List.reverse_reverse]

/-- When the record has no company name, no title and no features key, and
at least one section is non-empty, the first non-empty section's broken
translate call raises, the handler returns, and nothing changes: the call
returns the input record itself on both components. -/
theorem translate_structured_none_path (remote : String → Except Unit String)
    (job : JobRecord) (h1 : job.company_info.name = none)
    (h2 : job.job_details.title = none) (h3 : job.job_details.features = none)
    (h4 : nonEmptySectionItems job.structured_content ≠ []) :
    translate_structured_job_info remote job = (job, job) := by
  unfold translate_structured_job_info
  simp [h1, h2, h3, h4]

/-- C9 failing input: a record whose only content is a 5000-character
`job_description` section. -/
def jobLongSection : JobRecord :=
  ⟨⟨none, none, none, none⟩,
   ⟨none, none, none, none⟩,
   ⟨String.mk (List.replicate 5000 'a'), "", "", "", ""⟩,
   none⟩

/-- C9 (code bug): for a 5000-character section body, the source's
truncation expression (lines 815-817) would indeed keep exactly the first
3000 characters and its `word_count` expression (line 824) counts the full
original text — but neither value is ever produced: the translate call at
lines 818-820 uses the broken keyword signature and raises `TypeError`
before any text reaches the adapter, so the `(original, translated,
word_count)` triple is never recorded and the returned record has no
`translated_sections` mapping at all. -/
theorem orchestrator_drops_long_section_translation :
    truncateForTranslation (String.mk (List.replicate 5000 'a'))
      = String.mk (List.replicate 3000 'a') ∧
    wordCount (String.mk (List.replicate 5000 'a')) = 1 ∧
    (translate_structured_job_info okRemote jobLongSection).2.translated_sections = none := by
  have hdata : (String.mk (List.replicate 5000 'a')).data = List.replicate 5000 'a' := rfl
  have hmem : ∀ c ∈ List.replicate 5000 'a', isSpaceChar c = false := by
    intro c hc
    rw [(List.mem_replicate.mp hc).2]
    decide
  have hne : List.replicate 5000 'a' ≠ [] := by
    intro hc
    have := congrArg List.length hc
    rw [List.length_replicate] at this
    exact absurd this (by decide)
  refine ⟨?_, ?_, ?_⟩
  · unfold truncateForTranslation
    rw [hdata, if_pos (by rw [List.length_replicate]; omega), List.take_replicate]
    have hmin : min 3000 5000 = 3000 := by omega
    rw [hmin]
  · unfold wordCount
    rw [hdata, List.splitOnP_eq_single _ _ (fun x hx => by
      rw [hmem x hx]
      exact Bool.false_ne_true)]
    rw [List.filter_cons, if_pos (by rw [List.isEmpty_eq_false.mpr hne]; rfl)]
    rfl
  · have hstrip : pyStrip (String.mk (List.replicate 5000 'a'))
        = String.mk (List.replicate 5000 'a') := by
      unfold pyStrip
      rw [hdata, stripChars_eq_self_of_forall _ hmem]
    have hnz : pyStrip (String.mk (List.replicate 5000 'a')) ≠ "" := by
      rw [hstrip]
      intro hc
      have := congrArg String.data hc
      rw [hdata] at this
      exact hne this
    have hfilter_eq : nonEmptySectionItems jobLongSection.structured_content
        = [(SectionName.job_description, String.mk (List.replicate 5000 'a'))] := by
      show List.filter (fun e => decide (pyStrip e.2 ≠ ""))
        [(SectionName.job_description, String.mk (List.replicate 5000 'a')),
         (SectionName.requirements, ""), (SectionName.what_we_offer, ""),
         (SectionName.employment_conditions, ""), (SectionName.application_process, "")] = _
      rw [List.filter_cons, if_pos (decide_eq_true hnz)]
      rfl
    have hfilter : nonEmptySectionItems jobLongSection.structured_content ≠ [] := by
      rw [hfilter_eq]
      exact List.cons_ne_nil _ _
    rw [translate_structured_none_path okRemote jobLongSection rfl rfl rfl hfilter]
    rfl
